import Mathlib

/-!
Verification of the Smart Entity Extraction Microservice (`src/main.py`).

The Python source is shallowly embedded: the external spaCy model and the
Groq completion client are oracles supplied in an `Env` record, while the
pure logic (entity dedup, prompt construction, response cleaning, JSON
parsing, tag post-processing, endpoint orchestration) is translated
function by function.  `str.strip` / `str.lower` are modelled on the ASCII
range (the inputs of interest are ASCII), and `json.loads` is modelled by
an executable recursive-descent parser for the JSON grammar CPython's
`json` module accepts (including the `NaN` / `Infinity` extensions);
`\uXXXX` escapes are decoded without surrogate pairing, which no claim
exercises.
-/

namespace Anviro

/-- ASCII whitespace stripped by Python's `str.strip()`. -/
def isPySpace (c : Char) : Bool :=
  c == ' ' || c == '\t' || c == '\n' || c == '\r' || c == '\x0b' || c == '\x0c'

/-- `str.strip()` on the character list: drop whitespace from both ends. -/
def pyStripL (l : List Char) : List Char :=
  ((l.dropWhile isPySpace).reverse.dropWhile isPySpace).reverse

/-- `str.strip()` on strings. -/
def pyStrip (s : String) : String :=
  String.mk (pyStripL s.data)

/-- `t.lower().strip()` applied to one raw tag (ASCII lowering). -/
def lowerStrip (t : String) : String :=
  String.mk (pyStripL (t.data.map Char.toLower))

/-- `dict.fromkeys`: keep the first occurrence of each element. -/
def dedupeAux (seen : List String) : List String → List String
  | [] => []
  | x :: xs => if x ∈ seen then dedupeAux seen xs else x :: dedupeAux (x :: seen) xs

/-- `list(dict.fromkeys(l))`: order-preserving deduplication. -/
def dedupe (l : List String) : List String :=
  dedupeAux [] l

/-- The closing/plain code fence recognised by the regex `^```(?:json)?|```$`. -/
def fence3 : List Char := "```".data

/-- The `json`-tagged opening fence. -/
def fenceJson : List Char := "```json".data

/-- Leading part of `re.sub(r"^```(?:json)?|```$", "", content)`: the anchored
alternative `^```(?:json)?` removes one greedy fence marker at the start. -/
def stripFenceOpen (l : List Char) : List Char :=
  if fenceJson.isPrefixOf l then l.drop 7
  else if fence3.isPrefixOf l then l.drop 3
  else l

/-- Trailing part of the same substitution: ````$` removes a final fence. -/
def stripFenceClose (l : List Char) : List Char :=
  if fence3.isSuffixOf l then (l.reverse.drop 3).reverse else l

/-- Lines 106–109 of `main.py`: strip, remove fences, strip again. -/
def cleanContentL (l : List Char) : List Char :=
  pyStripL (stripFenceClose (stripFenceOpen (pyStripL l)))

/-! ### A model of `json.loads`

Values are classified only as far as the source inspects them
(`isinstance(tags, list)` and `isinstance(t, str)`), so numbers carry no
payload. -/

/-- JSON values as distinguished by `main.py`. -/
inductive Json where
  | null
  | bool (b : Bool)
  | num
  | str (s : String)
  | arr (xs : List Json)
  | obj (kvs : List (String × Json))

/-- JSON insignificant whitespace. -/
def jsonWs (c : Char) : Bool :=
  c == ' ' || c == '\t' || c == '\n' || c == '\r'

/-- Skip insignificant whitespace. -/
def skipWs (l : List Char) : List Char :=
  l.dropWhile jsonWs

/-- Value of one hexadecimal digit, computed from the code point. -/
def hexVal (c : Char) : Option Nat :=
  let n := c.toNat
  if 48 ≤ n ∧ n ≤ 57 then some (n - 48)
  else if 97 ≤ n ∧ n ≤ 102 then some (n - 87)
  else if 65 ≤ n ∧ n ≤ 70 then some (n - 55)
  else none

/-- Single-character JSON string escapes. -/
def escChar : Char → Option Char
  | '"' => some '"'
  | '\\' => some '\\'
  | '/' => some '/'
  | 'b' => some (Char.ofNat 8)
  | 'f' => some (Char.ofNat 12)
  | 'n' => some '\n'
  | 'r' => some (Char.ofNat 13)
  | 't' => some '\t'
  | _ => none

/-- Parse the body of a JSON string after the opening quote; returns the
decoded characters and the input after the closing quote.  Unescaped
control characters are rejected (CPython strict mode). -/
def jsonString : List Char → Option (List Char × List Char)
  | [] => none
  | c :: rest =>
    if c == '"' then some ([], rest)
    else if c == '\\' then
      match rest with
      | [] => none
      | e :: rest2 =>
        if e == 'u' then
          match rest2 with
          | h1 :: h2 :: h3 :: h4 :: rest3 =>
            match hexVal h1, hexVal h2, hexVal h3, hexVal h4 with
            | some a, some b, some c3, some d =>
              match jsonString rest3 with
              | some (cs, r) =>
                some (Char.ofNat (((a * 16 + b) * 16 + c3) * 16 + d) :: cs, r)
              | none => none
            | _, _, _, _ => none
          | _ => none
        else
          match escChar e with
          | some ec =>
            match jsonString rest2 with
            | some (cs, r) => some (ec :: cs, r)
            | none => none
          | none => none
    else if c.toNat < 32 then none
    else
      match jsonString rest with
      | some (cs, r) => some (c :: cs, r)
      | none => none

/-- Fractional part of the JSON number grammar (`(\.\d+)?`). -/
def jsonFrac : List Char → Option (List Char)
  | [] => some []
  | c :: rest =>
    if c == '.' then
      match rest with
      | d :: _ => if d.isDigit then some (rest.dropWhile (fun x => x.isDigit)) else none
      | [] => none
    else some (c :: rest)

/-- Exponent part of the JSON number grammar (`([eE][-+]?\d+)?`). -/
def jsonExp : List Char → Option (List Char)
  | [] => some []
  | c :: rest =>
    if c == 'e' || c == 'E' then
      let r := match rest with
        | s :: rest2 => if s == '+' || s == '-' then rest2 else s :: rest2
        | [] => []
      match r with
      | d :: _ => if d.isDigit then some (r.dropWhile (fun x => x.isDigit)) else none
      | [] => none
    else some (c :: rest)

/-- Recognise a JSON number (`-?(?:0|[1-9]\d*)(\.\d+)?([eE][-+]?\d+)?`),
returning the remaining input. -/
def jsonNumber (l : List Char) : Option (List Char) :=
  let l1 := match l with
    | c :: rest => if c == '-' then rest else l
    | [] => []
  match l1 with
  | c :: rest =>
    if c == '0' then (jsonFrac rest).bind jsonExp
    else if c.isDigit then (jsonFrac (rest.dropWhile (fun x => x.isDigit))).bind jsonExp
    else none
  | [] => none

mutual

/-- Parse one JSON value at the head of the input (no leading whitespace). -/
def jsonValue : Nat → List Char → Option (Json × List Char)
  | 0, _ => none
  | _ + 1, [] => none
  | fuel + 1, c :: rest =>
    if c == '"' then
      match jsonString rest with
      | some (cs, r) => some (Json.str (String.mk cs), r)
      | none => none
    else if c == '[' then
      match skipWs rest with
      | d :: r2 => if d == ']' then some (Json.arr [], r2) else jsonItems fuel (skipWs rest) []
      | [] => none
    else if c == '\x7b' then
      match skipWs rest with
      | d :: r2 => if d == '\x7d' then some (Json.obj [], r2) else jsonMembers fuel (skipWs rest) []
      | [] => none
    else if c == 't' then
      if "rue".data.isPrefixOf rest then some (Json.bool true, rest.drop 3) else none
    else if c == 'f' then
      if "alse".data.isPrefixOf rest then some (Json.bool false, rest.drop 4) else none
    else if c == 'n' then
      if "ull".data.isPrefixOf rest then some (Json.null, rest.drop 3) else none
    else if c == 'N' then
      if "aN".data.isPrefixOf rest then some (Json.num, rest.drop 2) else none
    else if c == 'I' then
      if "nfinity".data.isPrefixOf rest then some (Json.num, rest.drop 7) else none
    else if c == '-' then
      if "Infinity".data.isPrefixOf rest then some (Json.num, rest.drop 8)
      else
        match jsonNumber (c :: rest) with
        | some r => some (Json.num, r)
        | none => none
    else if c.isDigit then
      match jsonNumber (c :: rest) with
      | some r => some (Json.num, r)
      | none => none
    else none

/-- Parse the comma-separated elements of a non-empty array. -/
def jsonItems : Nat → List Char → List Json → Option (Json × List Char)
  | 0, _, _ => none
  | fuel + 1, l, acc =>
    match jsonValue fuel l with
    | none => none
    | some (v, r) =>
      match skipWs r with
      | c :: r2 =>
        if c == ',' then jsonItems fuel (skipWs r2) (acc ++ [v])
        else if c == ']' then some (Json.arr (acc ++ [v]), r2)
        else none
      | [] => none

/-- Parse the members of a non-empty object. -/
def jsonMembers : Nat → List Char → List (String × Json) → Option (Json × List Char)
  | 0, _, _ => none
  | fuel + 1, l, acc =>
    match l with
    | c :: rest =>
      if c == '"' then
        match jsonString rest with
        | some (k, r) =>
          match skipWs r with
          | d :: r2 =>
            if d == ':' then
              match jsonValue fuel (skipWs r2) with
              | some (v, r3) =>
                match skipWs r3 with
                | e :: r4 =>
                  if e == ',' then jsonMembers fuel (skipWs r4) (acc ++ [(String.mk k, v)])
                  else if e == '\x7d' then some (Json.obj (acc ++ [(String.mk k, v)]), r4)
                  else none
                | [] => none
              | none => none
            else none
          | [] => none
        | none => none
      else none
    | [] => none

end

/-- `json.loads`: parse one value, then require only trailing whitespace. -/
def jsonParse (l : List Char) : Option Json :=
  match jsonValue (l.length + 1) (skipWs l) with
  | some (v, r) => if (skipWs r).isEmpty then some v else none
  | none => none

/-- `all(isinstance(t, str) for t in tags)` with extraction: the string
elements of a JSON list, or `none` if some element is not a string. -/
def strsOf : List Json → Option (List String)
  | [] => some []
  | Json.str s :: rest =>
    match strsOf rest with
    | some ts => some (s :: ts)
    | none => none
  | _ :: _ => none

/-- `isinstance(tags, list)` plus the element check of line 112. -/
def strListOfJson : Json → Option (List String)
  | Json.arr xs => strsOf xs
  | _ => none

/-- The sentinel returned by the `except` branch of lines 118–119. -/
def sentinelTags : List String := ["tag extraction failed"]

/-- Lines 106–119 of `main.py`: clean the raw completion content, parse it
as JSON, and on a list of strings lowercase, trim, dedupe and truncate;
any other outcome yields the sentinel. -/
def parseTags (raw : String) (max_tags : Nat) : List String :=
  let content := cleanContentL raw.data
  match jsonParse content with
  | some j =>
    match strListOfJson j with
    | some ts => (dedupe (ts.map lowerStrip)).take max_tags
    | none => sentinelTags
  | none => sentinelTags

/-! ### Prompt construction (lines 54–96) -/

/-- `", ".join(entities) if entities else "None"`. -/
def entitiesListStr (entities : List String) : String :=
  if entities.isEmpty then "None" else String.intercalate ", " entities

/-- Template text before the first `{max_tags}` interpolation. -/
def promptSeg1 : String :=
  "\nYou are a professional assistant that summarizes the *context* of a text using short descriptive tags.\n\n## TASK:\nGiven a piece of text, generate "

/-- Template text between `{max_tags}` and `{entities_list}`. -/
def promptSeg2 : String :=
  " concise tags (1–3 words each) that describe the *purpose, action, or situation* — not the named entities.\n\n## DO NOT:\n- Repeat or include these entities: "

/-- Template text between `{entities_list}` and the second `{max_tags}`. -/
def promptSeg3 : String :=
  "\n- Mention people\x27s names, organizations, or locations.\n\n## DO:\n- Focus on the meaning or event (e.g., travel, meetings, deals, reports, etc.)\n- Return only a JSON array of lowercase strings.\n\n## EXAMPLES\n\nInput:\n\"John Doe from Acme Corp traveled to New York on July 20 for a business meeting.\"\nOutput:\n[\"business trip\", \"meeting\", \"schedule\"]\n\n---\n\nInput:\n\"Apple unveiled the new iPhone 16 during their launch event in California.\"\nOutput:\n[\"product launch\", \"technology\", \"marketing\"]\n\n---\n\nInput:\n\"Sarah joined Microsoft as a software engineer.\"\nOutput:\n[\"career move\", \"hiring\", \"tech industry\"]\n\n---\n\nNow analyze this text and produce only the JSON array of "

/-- Template text between the second `{max_tags}` and `{text}`. -/
def promptSeg4 : String := " tags:\n\n"

/-- The f-string of lines 56–96: a pure function of text, entities and
`max_tags`; the literal text is the final interpolation, followed only by
the newline closing the triple-quoted string. -/
def buildPrompt (text : String) (entities : List String) (max_tags : Nat) : String :=
  promptSeg1 ++ toString max_tags ++ promptSeg2 ++ entitiesListStr entities ++
    promptSeg3 ++ toString max_tags ++ promptSeg4 ++ text ++ "\n"

/-! ### Service orchestration -/

/-- Outcome of the remote completion call: raw message content, or a
transport/service failure (error, timeout, unusable payload). -/
inductive GroqResult where
  | ok (content : String)
  | err

/-- Exceptions escaping `generate_tags_with_groq`. -/
inductive TagErr where
  | noKey
  | service
deriving DecidableEq

/-- Process environment: credential presence, the spaCy oracle (the
`(ent.text, ent.label_)` pairs of `nlp(text).ents`), and the completion
oracle keyed by the message actually sent (`prompt.strip()`). -/
structure Env where
  apiKeyPresent : Bool
  nlp : String → List (String × String)
  complete : String → GroqResult

/-- The entity label allow-list of line 38. -/
def wanted : List String :=
  ["PERSON", "ORG", "GPE", "LOC", "DATE", "EVENT", "PRODUCT", "NORP"]

/-- The `ent_vals` comprehension of line 39: surface strings of the
entities whose label is in the allow-list, each stripped. -/
def entVals (env : Env) (text : String) : List String :=
  ((env.nlp text).filter (fun p => wanted.contains p.2)).map (fun p => pyStrip p.1)

/-- `extract_entities` (lines 35–47): filter by label, strip each surface
string, dedupe preserving order. -/
def extract_entities (env : Env) (text : String) : List String :=
  dedupe (entVals env text)

/-- `generate_tags_with_groq` (lines 49–119): fail fast without the
credential, call the completion service with the stripped prompt, and
parse the returned content. -/
def generate_tags_with_groq (env : Env) (text : String) (entities : List String)
    (max_tags : Nat := 5) : Except TagErr (List String) :=
  if env.apiKeyPresent then
    match env.complete (pyStrip (buildPrompt text entities max_tags)) with
    | GroqResult.ok content => Except.ok (parseTags content max_tags)
    | GroqResult.err => Except.error TagErr.service
  else Except.error TagErr.noKey

/-- Response payload of `POST /extract`. -/
structure ExtractOut where
  entities : List String
  tags : List String
  len_text : Nat
deriving DecidableEq

/-- HTTP outcome of the endpoint. -/
inductive HTTPResp where
  | ok (out : ExtractOut)
  | badRequest (detail : String)
deriving DecidableEq

/-- `extract_endpoint` (lines 122–134): trim, reject empty text with 400,
extract entities, generate tags catching every exception into the
entities-as-tags fallback, and assemble the payload. -/
def extract_endpoint (env : Env) (payloadText : String) : HTTPResp :=
  let text := pyStrip payloadText
  if text = "" then HTTPResp.badRequest "text must be non-empty"
  else
    let entities := extract_entities env text
    let tags := match generate_tags_with_groq env text entities with
      | Except.ok ts => ts
      | Except.error _ => entities.take 5
    HTTPResp.ok ⟨entities, tags, text.length⟩

/-- Modelled from the spec: the permissive recovery of §4.3 step 3, which
is absent from `src/main.py` — strip an outer bracket pair if present,
split on commas, trim each piece, strip surrounding quote characters,
discard empty pieces, truncate to `max_tags`. -/
def permissiveRecoverSpec (content : String) (max_tags : Nat) : List String :=
  let l := pyStripL content.data
  let inner :=
    if l.head? = some '[' ∧ l.getLast? = some ']' then (l.drop 1).dropLast else l
  let pieces := (inner.splitOn ',').map (fun p =>
    (pyStripL p).dropWhile (fun c => c == '"' || c == '\x27')
      |>.reverse.dropWhile (fun c => c == '"' || c == '\x27') |>.reverse)
  ((pieces.filter (fun p => ¬ p.isEmpty)).map String.mk).take max_tags

/-! ### Properties of `dedupe` -/

theorem mem_dedupeAux {x : String} : ∀ (seen l : List String),
    x ∈ dedupeAux seen l ↔ x ∈ l ∧ x ∉ seen
  | _, [] => by simp [dedupeAux]
  | seen, y :: ys => by
    by_cases hy : y ∈ seen
    · rw [dedupeAux, if_pos hy, mem_dedupeAux seen ys]
      constructor
      · rintro ⟨h1, h2⟩; exact ⟨List.mem_cons_of_mem _ h1, h2⟩
      · rintro ⟨h1, h2⟩
        rcases List.mem_cons.1 h1 with rfl | h1
        · exact absurd hy h2
        · exact ⟨h1, h2⟩
    · rw [dedupeAux, if_neg hy]
      rw [List.mem_cons, mem_dedupeAux (y :: seen) ys]
      constructor
      · rintro (rfl | ⟨h1, h2⟩)
        · exact ⟨List.mem_cons_self _ _, hy⟩
        · exact ⟨List.mem_cons_of_mem _ h1, fun hx => h2 (List.mem_cons_of_mem _ hx)⟩
      · rintro ⟨h1, h2⟩
        rcases List.mem_cons.1 h1 with rfl | h1
        · exact Or.inl rfl
        · by_cases hxy : x = y
          · exact Or.inl hxy
          · refine Or.inr ⟨h1, fun hx => ?_⟩
            rcases List.mem_cons.1 hx with h | hx
            · exact hxy h
            · exact h2 hx

theorem nodup_dedupeAux : ∀ (seen l : List String), (dedupeAux seen l).Nodup
  | _, [] => List.nodup_nil
  | seen, y :: ys => by
    by_cases hy : y ∈ seen
    · rw [dedupeAux, if_pos hy]; exact nodup_dedupeAux seen ys
    · rw [dedupeAux, if_neg hy]
      refine List.nodup_cons.2 ⟨fun hmem => ?_, nodup_dedupeAux (y :: seen) ys⟩
      exact ((mem_dedupeAux _ _).1 hmem).2 (List.mem_cons_self _ _)

theorem dedupeAux_sublist : ∀ (seen l : List String), List.Sublist (dedupeAux seen l) l
  | _, [] => List.Sublist.refl _
  | seen, y :: ys => by
    by_cases hy : y ∈ seen
    · rw [dedupeAux, if_pos hy]
      exact (dedupeAux_sublist seen ys).trans (List.sublist_cons_self _ _)
    · rw [dedupeAux, if_neg hy]
      exact List.Sublist.cons₂ _ (dedupeAux_sublist (y :: seen) ys)

theorem dedupe_nodup (l : List String) : (dedupe l).Nodup :=
  nodup_dedupeAux [] l

theorem dedupe_sublist (l : List String) : List.Sublist (dedupe l) l :=
  dedupeAux_sublist [] l

theorem mem_dedupe {x : String} {l : List String} : x ∈ dedupe l ↔ x ∈ l := by
  rw [dedupe, mem_dedupeAux]; simp

theorem dedupeAux_pairwise_indexOf : ∀ (seen l : List String),
    (dedupeAux seen l).Pairwise (fun a b => l.indexOf a < l.indexOf b)
  | _, [] => List.Pairwise.nil
  | seen, y :: ys => by
    by_cases hy : y ∈ seen
    · rw [dedupeAux, if_pos hy]
      refine (dedupeAux_pairwise_indexOf seen ys).imp_of_mem ?_
      intro a b ha hb hlt
      have hay : a ≠ y := fun h =>
        ((mem_dedupeAux seen ys).1 ha).2 (h ▸ hy)
      have hby : b ≠ y := fun h =>
        ((mem_dedupeAux seen ys).1 hb).2 (h ▸ hy)
      rw [List.indexOf_cons_ne _ (Ne.symm hay), List.indexOf_cons_ne _ (Ne.symm hby)]
      exact Nat.succ_lt_succ hlt
    · rw [dedupeAux, if_neg hy]
      refine List.pairwise_cons.2 ⟨?_, ?_⟩
      · intro b hb
        have hby : b ≠ y := fun h =>
          ((mem_dedupeAux (y :: seen) ys).1 hb).2 (h ▸ List.mem_cons_self _ _)
        rw [List.indexOf_cons_self, List.indexOf_cons_ne _ (Ne.symm hby)]
        exact Nat.succ_pos _
      · refine (dedupeAux_pairwise_indexOf (y :: seen) ys).imp_of_mem ?_
        intro a b ha hb hlt
        have hay : a ≠ y := fun h =>
          ((mem_dedupeAux (y :: seen) ys).1 ha).2 (h ▸ List.mem_cons_self _ _)
        have hby : b ≠ y := fun h =>
          ((mem_dedupeAux (y :: seen) ys).1 hb).2 (h ▸ List.mem_cons_self _ _)
        rw [List.indexOf_cons_ne _ (Ne.symm hay), List.indexOf_cons_ne _ (Ne.symm hby)]
        exact Nat.succ_lt_succ hlt

theorem dedupe_pairwise_indexOf (l : List String) :
    (dedupe l).Pairwise (fun a b => l.indexOf a < l.indexOf b) :=
  dedupeAux_pairwise_indexOf [] l

/-! ### Properties of the tag parser -/

theorem strsOf_map_str : ∀ ts : List String, strsOf (ts.map Json.str) = some ts
  | [] => rfl
  | t :: ts => by rw [List.map_cons, strsOf, strsOf_map_str ts]

theorem parseTags_cases (raw : String) (m : Nat) :
    (parseTags raw m = sentinelTags ∧ (jsonParse (cleanContentL raw.data)).bind strListOfJson = none) ∨
    (∃ ts, (jsonParse (cleanContentL raw.data)).bind strListOfJson = some ts ∧
      parseTags raw m = (dedupe (ts.map lowerStrip)).take m) := by
  rw [parseTags]
  cases hj : jsonParse (cleanContentL raw.data) with
  | none => exact Or.inl ⟨rfl, rfl⟩
  | some j =>
    cases hs : strListOfJson j with
    | none => exact Or.inl ⟨by simp [hs], by simp [hs]⟩
    | some ts => exact Or.inr ⟨ts, by simp [hs], by simp [hs]⟩

theorem parseTags_nodup (raw : String) (m : Nat) : (parseTags raw m).Nodup := by
  rcases parseTags_cases raw m with ⟨h, _⟩ | ⟨ts, _, h⟩
  · rw [h]; simp [sentinelTags]
  · rw [h]
    exact List.Nodup.sublist (List.take_sublist _ _) (dedupe_nodup _)

theorem parseTags_length_le (raw : String) (m : Nat) (hm : 1 ≤ m) :
    (parseTags raw m).length ≤ m := by
  rcases parseTags_cases raw m with ⟨h, _⟩ | ⟨ts, _, h⟩
  · rw [h]; simpa [sentinelTags] using hm
  · rw [h]; exact List.length_take_le _ _

theorem generate_tags_ok_inv {env : Env} {t : String} {e : List String} {m : Nat}
    {ts : List String} (h : generate_tags_with_groq env t e m = Except.ok ts) :
    ∃ c, ts = parseTags c m := by
  rw [generate_tags_with_groq] at h
  by_cases hk : env.apiKeyPresent
  · rw [if_pos hk] at h
    cases hc : env.complete (pyStrip (buildPrompt t e m)) with
    | ok content =>
      rw [hc] at h
      exact ⟨content, (Except.ok.inj h).symm⟩
    | err => rw [hc] at h; exact absurd h (by simp)
  · rw [if_neg hk] at h; exact absurd h (by simp)

/-! ### Length facts about `pyStrip` -/

theorem pyStripL_length_le (l : List Char) : (pyStripL l).length ≤ l.length := by
  rw [pyStripL, List.length_reverse]
  calc ((l.dropWhile isPySpace).reverse.dropWhile isPySpace).length
      ≤ (l.dropWhile isPySpace).reverse.length :=
        (List.dropWhile_sublist _).length_le
    _ = (l.dropWhile isPySpace).length := List.length_reverse _
    _ ≤ l.length := (List.dropWhile_sublist _).length_le

theorem pyStripL_length_lt_of_head {c : Char} {l : List Char}
    (hc : isPySpace c = true) : (pyStripL (c :: l)).length < (c :: l).length := by
  rw [pyStripL, List.length_reverse, List.dropWhile_cons_of_pos hc]
  calc ((l.dropWhile isPySpace).reverse.dropWhile isPySpace).length
      ≤ (l.dropWhile isPySpace).reverse.length :=
        (List.dropWhile_sublist _).length_le
    _ = (l.dropWhile isPySpace).length := List.length_reverse _
    _ ≤ l.length := (List.dropWhile_sublist _).length_le
    _ < (c :: l).length := Nat.lt_succ_self _

theorem pyStripL_length_lt_of_last {c : Char} {l : List Char}
    (hlast : l.getLast? = some c) (hc : isPySpace c = true) :
    (pyStripL l).length < l.length := by
  have hlnil : l ≠ [] := by rintro rfl; simp at hlast
  have hlpos : 0 < l.length := List.length_pos.2 hlnil
  rw [pyStripL, List.length_reverse]
  cases hrev : (l.dropWhile isPySpace).reverse with
  | nil => simpa using hlpos
  | cons b rt =>
    obtain ⟨pre, hpre⟩ := List.dropWhile_suffix (l := l) isPySpace
    have hdb : (l.dropWhile isPySpace).getLast? = some b := by
      rw [← List.head?_reverse, hrev]; rfl
    have hlb : l.getLast? = some b := by
      rw [← hpre, List.getLast?_append, hdb]; rfl
    have hbc : b = c := by
      rw [hlb] at hlast; exact Option.some.inj hlast
    have hlen : (l.dropWhile isPySpace).length ≤ l.length :=
      (List.dropWhile_sublist _).length_le
    have hlenrev : rt.length + 1 = (l.dropWhile isPySpace).length := by
      have h := congrArg List.length hrev
      rw [List.length_reverse] at h
      simpa [Nat.add_comm] using h.symm
    have h5 : (rt.dropWhile isPySpace).length ≤ rt.length :=
      (List.dropWhile_sublist _).length_le
    rw [List.dropWhile_cons_of_pos (hbc ▸ hc)]
    omega

theorem pyStrip_length_le (s : String) : (pyStrip s).length ≤ s.length :=
  pyStripL_length_le s.data

/-! ### Inverting the endpoint -/

theorem extract_endpoint_ok_inv {env : Env} {raw : String} {out : ExtractOut}
    (h : extract_endpoint env raw = HTTPResp.ok out) :
    pyStrip raw ≠ "" ∧
    out.entities = extract_entities env (pyStrip raw) ∧
    out.len_text = (pyStrip raw).length ∧
    (out.tags = (extract_entities env (pyStrip raw)).take 5 ∨
      ∃ c, out.tags = parseTags c 5) := by
  rw [extract_endpoint] at h
  simp only [] at h
  split at h
  next hempty => exact absurd h (by simp)
  next hne =>
    refine ⟨hne, ?_⟩
    cases hg : generate_tags_with_groq env (pyStrip raw) (extract_entities env (pyStrip raw)) with
    | ok ts =>
      rw [hg] at h
      have hout := HTTPResp.ok.inj h
      obtain ⟨c, hc⟩ := generate_tags_ok_inv hg
      refine ⟨by rw [← hout], by rw [← hout], Or.inr ⟨c, ?_⟩⟩
      rw [← hout, ← hc]
    | error e =>
      rw [hg] at h
      have hout := HTTPResp.ok.inj h
      exact ⟨by rw [← hout], by rw [← hout], Or.inl (by rw [← hout])⟩

/-! ### Fence stripping -/

theorem pyStripL_of_no_edge_space {l : List Char}
    (h1 : ∀ c, l.head? = some c → isPySpace c = false)
    (h2 : ∀ c, l.getLast? = some c → isPySpace c = false) :
    pyStripL l = l := by
  have hd : l.dropWhile isPySpace = l := by
    cases l with
    | nil => rfl
    | cons a t =>
      rw [List.dropWhile_cons_of_neg]
      simp [h1 a rfl]
  rw [pyStripL, hd]
  have hr : l.reverse.dropWhile isPySpace = l.reverse := by
    cases hrev : l.reverse with
    | nil => rfl
    | cons b rt =>
      have hb : l.getLast? = some b := by rw [← List.head?_reverse, hrev]; rfl
      rw [List.dropWhile_cons_of_neg]
      simp [h2 b hb]
  rw [hr, List.reverse_reverse]

theorem stripFenceOpen_fenceJson (body : List Char) :
    stripFenceOpen (fenceJson ++ body) = body := by
  rw [stripFenceOpen, if_pos]
  · exact List.drop_left' (by rfl)
  · exact List.isPrefixOf_iff_prefix.2 (List.prefix_append _ _)

theorem stripFenceOpen_fence3 (body : List Char)
    (hjson : ("json".data.isPrefixOf body) = false) :
    stripFenceOpen (fence3 ++ body) = body := by
  rw [stripFenceOpen, if_neg, if_pos]
  · exact List.drop_left' (by rfl)
  · exact List.isPrefixOf_iff_prefix.2 (List.prefix_append _ _)
  · intro hpre
    have : fenceJson.isPrefixOf (fence3 ++ body) = true := by simpa using hpre
    rw [show fenceJson = fence3 ++ "json".data from rfl] at this
    rw [List.isPrefixOf_iff_prefix, List.prefix_append_right_inj] at this
    rw [← List.isPrefixOf_iff_prefix, hjson] at this
    exact Bool.false_ne_true this

theorem stripFenceClose_append (body : List Char) :
    stripFenceClose (body ++ fence3) = body := by
  rw [stripFenceClose, if_pos]
  · rw [List.reverse_append]
    rw [List.drop_left' (by rfl), List.reverse_reverse]
  · exact List.isSuffixOf_iff_suffix.2 (List.suffix_append _ _)

theorem pyStripL_fenced (pre : List Char) (body : List Char)
    (hpre : pre.head? = some (Char.ofNat 96)) :
    pyStripL (pre ++ body ++ fence3) = pre ++ body ++ fence3 := by
  refine pyStripL_of_no_edge_space ?_ ?_
  · intro c hc
    cases pre with
    | nil => simp at hpre
    | cons a t =>
      have ha : a = Char.ofNat 96 := by simpa using hpre
      have hca : c = a := by simpa using hc.symm
      rw [hca, ha]; decide
  · intro c hc
    have : (pre ++ body ++ fence3).getLast? = some (Char.ofNat 96) := by
      rw [List.getLast?_append]; rfl
    rw [this] at hc
    have : c = Char.ofNat 96 := by simpa using hc.symm
    rw [this]; decide

/-! ### Claim theorems -/

/-- C7: before structured parsing the parser strips surrounding whitespace
and removes a leading markdown code fence (optionally tagged `json`) and a
trailing code fence; in particular the raw output
` ```json\n["a","b"]\n``` ` parses to `["a","b"]`. -/
theorem cleanContent_strips_fences :
    (∀ body : List Char, cleanContentL (fenceJson ++ body ++ fence3) = pyStripL body) ∧
    (∀ body : List Char, ("json".data.isPrefixOf (body ++ fence3)) = false →
      cleanContentL (fence3 ++ body ++ fence3) = pyStripL body) ∧
    parseTags "```json\n[\"a\",\"b\"]\n```" 5 = ["a", "b"] := by
  refine ⟨fun body => ?_, fun body hjson => ?_, by decide⟩
  · rw [cleanContentL, pyStripL_fenced fenceJson body rfl, List.append_assoc,
      stripFenceOpen_fenceJson, stripFenceClose_append]
  · rw [cleanContentL, pyStripL_fenced fence3 body rfl, List.append_assoc,
      stripFenceOpen_fence3 _ hjson, stripFenceClose_append]

/-- Witness for C7: the plain-fence conjunct applied to the body `["x"]`,
whose side condition (the content does not begin with `json`) is
discharged concretely. -/
theorem cleanContent_strips_fences_witness :
    ("json".data.isPrefixOf ("[\"x\"]".data ++ fence3)) = false ∧
    cleanContentL (fence3 ++ "[\"x\"]".data ++ fence3) = pyStripL "[\"x\"]".data :=
  ⟨by decide, cleanContent_strips_fences.2.1 "[\"x\"]".data (by decide)⟩

/-- C8: the entity list returned by `extract_entities` has no two equal
strings and lists the entity surface strings in first-occurrence order of
the source sequence `ent_vals`. -/
theorem extract_entities_first_occurrence (env : Env) (text : String) :
    (extract_entities env text).Nodup ∧
    List.Sublist (extract_entities env text) (entVals env text) ∧
    (∀ x, x ∈ extract_entities env text ↔ x ∈ entVals env text) ∧
    (extract_entities env text).Pairwise
      (fun a b => (entVals env text).indexOf a < (entVals env text).indexOf b) :=
  ⟨dedupe_nodup _, dedupe_sublist _, fun _ => mem_dedupe, dedupe_pairwise_indexOf _⟩

/-- C9: the prompt is a pure function of text, entities and `max_tags`
(purity is inherent to the functional embedding); it embeds `max_tags`,
renders the entities comma-joined with the literal `None` when the list is
empty, and ends with the literal request text (followed only by the
newline that closes the triple-quoted template). -/
theorem buildPrompt_spec :
    (∀ (text : String) (entities : List String) (max_tags : Nat),
      (∃ p, buildPrompt text entities max_tags = p ++ (text ++ "\n")) ∧
      (∃ p q, buildPrompt text entities max_tags = p ++ entitiesListStr entities ++ q) ∧
      (∃ p q, buildPrompt text entities max_tags = p ++ toString max_tags ++ q)) ∧
    entitiesListStr [] = "None" ∧
    (∀ (a : String) (l : List String),
      entitiesListStr (a :: l) = String.intercalate ", " (a :: l)) := by
  refine ⟨fun t e m =>
    ⟨⟨promptSeg1 ++ toString m ++ promptSeg2 ++ entitiesListStr e ++ promptSeg3 ++
        toString m ++ promptSeg4, ?_⟩,
      ⟨promptSeg1 ++ toString m ++ promptSeg2,
        promptSeg3 ++ toString m ++ promptSeg4 ++ t ++ "\n", ?_⟩,
      ⟨promptSeg1,
        promptSeg2 ++ entitiesListStr e ++ promptSeg3 ++ toString m ++ promptSeg4 ++
          t ++ "\n", ?_⟩⟩,
    rfl, fun a l => rfl⟩ <;>
  simp [buildPrompt, String.append_assoc]

/-- Environment double used by witnesses: credential present, one spaCy
entity, completion returning a well-formed tag array. -/
def envOkW : Env :=
  ⟨true, fun _ => [("Acme", "ORG")], fun _ => GroqResult.ok "[\"news\"]"⟩

/-- Environment double used by witnesses: missing credential, two spaCy
entities, completion failing at the transport level. -/
def envNoKeyW : Env :=
  ⟨false, fun _ => [("Paris", "GPE"), ("June", "DATE")], fun _ => GroqResult.err⟩

/-- Claim C1: only empty-after-trim text yields HTTP 400; for non-empty
trimmed text the endpoint returns 200, and any exception from tag
generation is caught and replaced by the entities-as-tags fallback. -/
theorem endpoint_status_policy :
    (∀ (env : Env) (raw : String), pyStrip raw = "" →
      extract_endpoint env raw = HTTPResp.badRequest "text must be non-empty") ∧
    (∀ (env : Env) (raw : String), pyStrip raw ≠ "" →
      (∃ out, extract_endpoint env raw = HTTPResp.ok out) ∧
      (∀ e, generate_tags_with_groq env (pyStrip raw)
          (extract_entities env (pyStrip raw)) = Except.error e →
        extract_endpoint env raw = HTTPResp.ok
          ⟨extract_entities env (pyStrip raw),
            (extract_entities env (pyStrip raw)).take 5, (pyStrip raw).length⟩)) := by
  refine ⟨fun env raw h => ?_, fun env raw h => ⟨?_, fun e he => ?_⟩⟩
  · simp [extract_endpoint, h]
  · rw [extract_endpoint]
    simp only [if_neg h]
    exact ⟨_, rfl⟩
  · rw [extract_endpoint]
    simp only [if_neg h]
    rw [he]

/-- Witness for C1: the empty input `"  "` is rejected with 400, and on
`"hi"` with a missing credential the endpoint returns 200 with the
entities-as-tags fallback. -/
theorem endpoint_status_policy_witness :
    (pyStrip "  " = "" ∧
      extract_endpoint envNoKeyW "  " = HTTPResp.badRequest "text must be non-empty") ∧
    (pyStrip "hi" ≠ "" ∧
      generate_tags_with_groq envNoKeyW (pyStrip "hi")
        (extract_entities envNoKeyW (pyStrip "hi")) = Except.error TagErr.noKey ∧
      extract_endpoint envNoKeyW "hi" = HTTPResp.ok
        ⟨extract_entities envNoKeyW (pyStrip "hi"),
          (extract_entities envNoKeyW (pyStrip "hi")).take 5, (pyStrip "hi").length⟩) :=
  ⟨⟨by decide, endpoint_status_policy.1 envNoKeyW "  " (by decide)⟩,
    ⟨by decide, rfl,
      (endpoint_status_policy.2 envNoKeyW "hi" (by decide)).2 TagErr.noKey rfl⟩⟩

/-- Claim C3: when the credential is missing or the completion call fails,
a valid request still returns 200 and the tags are the first
`min(5, len(entities))` entities in order. -/
theorem fallback_on_service_failure (env : Env) (raw : String)
    (hne : pyStrip raw ≠ "")
    (hfail : env.apiKeyPresent = false ∨
      env.complete (pyStrip (buildPrompt (pyStrip raw)
        (extract_entities env (pyStrip raw)) 5)) = GroqResult.err) :
    extract_endpoint env raw = HTTPResp.ok
      ⟨extract_entities env (pyStrip raw),
        (extract_entities env (pyStrip raw)).take 5, (pyStrip raw).length⟩ ∧
    ((extract_entities env (pyStrip raw)).take 5).length =
      min 5 (extract_entities env (pyStrip raw)).length := by
  have hgen : ∃ e, generate_tags_with_groq env (pyStrip raw)
      (extract_entities env (pyStrip raw)) = Except.error e := by
    rw [generate_tags_with_groq]
    rcases hfail with hk | hc
    · rw [if_neg (by simp [hk])]
      exact ⟨TagErr.noKey, rfl⟩
    · by_cases hk : env.apiKeyPresent
      · rw [if_pos hk, hc]
        exact ⟨TagErr.service, rfl⟩
      · rw [if_neg hk]
        exact ⟨TagErr.noKey, rfl⟩
  obtain ⟨e, he⟩ := hgen
  refine ⟨?_, List.length_take _ _⟩
  rw [extract_endpoint]
  simp only [if_neg hne]
  rw [he]

/-- Witness for C3: with the credential absent, `"hi"` returns 200 with
the two extracted entities as tags. -/
theorem fallback_on_service_failure_witness :
    pyStrip "hi" ≠ "" ∧
    envNoKeyW.apiKeyPresent = false ∧
    (extract_endpoint envNoKeyW "hi" = HTTPResp.ok
      ⟨extract_entities envNoKeyW (pyStrip "hi"),
        (extract_entities envNoKeyW (pyStrip "hi")).take 5, (pyStrip "hi").length⟩ ∧
    ((extract_entities envNoKeyW (pyStrip "hi")).take 5).length =
      min 5 (extract_entities envNoKeyW (pyStrip "hi")).length) :=
  ⟨by decide, by decide,
    fallback_on_service_failure envNoKeyW "hi" (by decide) (Or.inl (by decide))⟩

/-- Claim C6: every 200 response carries a tag list of length at most 5
with no duplicates, on all three paths (strict parse, sentinel, entity
fallback). -/
theorem tags_bounded_nodup (env : Env) (raw : String) (out : ExtractOut)
    (h : extract_endpoint env raw = HTTPResp.ok out) :
    out.tags.length ≤ 5 ∧ out.tags.Nodup := by
  rcases extract_endpoint_ok_inv h with ⟨-, -, -, htags | ⟨c, htags⟩⟩
  · rw [htags]
    exact ⟨List.length_take_le _ _,
      List.Nodup.sublist (List.take_sublist _ _) (dedupe_nodup _)⟩
  · rw [htags]
    exact ⟨parseTags_length_le _ _ (by omega), parseTags_nodup _ _⟩

/-- Witness for C6: a successful completion path with one tag. -/
theorem tags_bounded_nodup_witness :
    extract_endpoint envOkW "hi" = HTTPResp.ok ⟨["Acme"], ["news"], 2⟩ ∧
    ((ExtractOut.mk ["Acme"] ["news"] 2).tags.length ≤ 5 ∧
      (ExtractOut.mk ["Acme"] ["news"] 2).tags.Nodup) :=
  ⟨by decide, tags_bounded_nodup envOkW "hi" ⟨["Acme"], ["news"], 2⟩ (by decide)⟩

/-- Claim C10: `meta.len_text` reports the length of the trimmed text, and
is strictly smaller than the raw length whenever the raw text has leading
or trailing whitespace. -/
theorem len_text_reports_trimmed_length (env : Env) (raw : String) (out : ExtractOut)
    (h : extract_endpoint env raw = HTTPResp.ok out) :
    out.len_text = (pyStrip raw).length ∧
    (((∃ c, raw.data.head? = some c ∧ isPySpace c = true) ∨
      (∃ c, raw.data.getLast? = some c ∧ isPySpace c = true)) →
      out.len_text < raw.length) := by
  rcases extract_endpoint_ok_inv h with ⟨-, -, hlen, -⟩
  refine ⟨hlen, fun hws => ?_⟩
  rw [hlen]
  have hlt : (pyStripL raw.data).length < raw.data.length := by
    rcases hws with ⟨c, hc, hsp⟩ | ⟨c, hc, hsp⟩
    · cases hd : raw.data with
      | nil => rw [hd] at hc; simp at hc
      | cons a t =>
        rw [hd] at hc
        have hca : a = c := by simpa using hc
        rw [hca]
        exact pyStripL_length_lt_of_head hsp
    · exact pyStripL_length_lt_of_last hc hsp
  exact hlt

/-- Witness for C10: the raw text `" hi "` reports length 2, strictly
below its raw length 4. -/
theorem len_text_reports_trimmed_length_witness :
    extract_endpoint envNoKeyW " hi " =
      HTTPResp.ok ⟨["Paris", "June"], ["Paris", "June"], 2⟩ ∧
    (∃ c, " hi ".data.head? = some c ∧ isPySpace c = true) ∧
    ((ExtractOut.mk ["Paris", "June"] ["Paris", "June"] 2).len_text = (pyStrip " hi ").length ∧
      (ExtractOut.mk ["Paris", "June"] ["Paris", "June"] 2).len_text < " hi ".length) :=
  ⟨by decide, ⟨' ', by decide⟩, by
    have h := len_text_reports_trimmed_length envNoKeyW " hi "
      ⟨["Paris", "June"], ["Paris", "June"], 2⟩ (by decide)
    exact ⟨h.1, h.2 (Or.inl ⟨' ', by decide⟩)⟩⟩

/-- Claim C5: when the cleaned model output strictly parses as a JSON
array of strings, the returned tags are obtained by lowercasing, trimming,
deduplicating preserving first occurrence, and truncating to `max_tags`,
in that order; in particular `["news","news","update"]` yields
`["news","update"]`. -/
theorem parseTags_strict_success :
    (∀ (raw : String) (m : Nat) (ts : List String),
      jsonParse (cleanContentL raw.data) = some (Json.arr (ts.map Json.str)) →
      parseTags raw m = (dedupe (ts.map lowerStrip)).take m) ∧
    parseTags "[\"news\",\"news\",\"update\"]" 5 = ["news", "update"] := by
  refine ⟨fun raw m ts h => ?_, by decide⟩
  rw [parseTags]
  simp only [h, strListOfJson, strsOf_map_str]

/-- Witness for C5: the strict-parse hypothesis holds for the raw output
`["News", "news "]`, and the processed result is `["news"]`. -/
theorem parseTags_strict_success_witness :
    jsonParse (cleanContentL "[\"News\", \"news \"]".data) =
      some (Json.arr ((["News", "news "] : List String).map Json.str)) ∧
    parseTags "[\"News\", \"news \"]" 5 =
      (dedupe ((["News", "news "] : List String).map lowerStrip)).take 5 :=
  ⟨rfl, parseTags_strict_success.1 "[\"News\", \"news \"]" 5 ["News", "news "] rfl⟩

/-- Claim C4: tag-response parsing is total — for every raw completion
text it either returns the processed tag list of a strict parse or the
single-element sentinel `["tag extraction failed"]`; non-JSON content, a
JSON value that is not a list, and a list containing a non-string all
yield the sentinel. -/
theorem parseTags_total :
    (∀ (raw : String) (m : Nat),
      ((jsonParse (cleanContentL raw.data)).bind strListOfJson = none ∧
        parseTags raw m = ["tag extraction failed"]) ∨
      (∃ ts, (jsonParse (cleanContentL raw.data)).bind strListOfJson = some ts ∧
        parseTags raw m = (dedupe (ts.map lowerStrip)).take m)) ∧
    parseTags "not a list at all" 5 = ["tag extraction failed"] ∧
    parseTags "\"just a string\"" 5 = ["tag extraction failed"] ∧
    parseTags "[1, 2]" 5 = ["tag extraction failed"] := by
  refine ⟨fun raw m => ?_, by decide, by decide, by decide⟩
  rcases parseTags_cases raw m with ⟨h1, h2⟩ | ⟨ts, h1, h2⟩
  · exact Or.inl ⟨h2, h1⟩
  · exact Or.inr ⟨ts, h1, h2⟩

/-- Counterexample to claim C2: on `tag1, tag2` the strict JSON parse
fails, and the parser returns the sentinel rather than the list
`["tag1","tag2"]` that the claimed permissive recovery (modelled from the
spec as `permissiveRecoverSpec`) would produce. -/
theorem no_permissive_recovery :
    jsonParse (cleanContentL "tag1, tag2".data) = none ∧
    parseTags "tag1, tag2" 5 = ["tag extraction failed"] ∧
    permissiveRecoverSpec "tag1, tag2" 5 = ["tag1", "tag2"] ∧
    (["tag extraction failed"] : List String) ≠ ["tag1", "tag2"] :=
  ⟨rfl, by decide, by decide, by decide⟩

/-- Claim C2 as amended: when the strict JSON parse of the cleaned raw
output fails, the parser applies no permissive recovery — it returns the
sentinel list `["tag extraction failed"]`. -/
theorem sentinel_on_strict_parse_failure (raw : String) (m : Nat)
    (h : jsonParse (cleanContentL raw.data) = none) :
    parseTags raw m = ["tag extraction failed"] := by
  rw [parseTags]
  simp only [h]
  rfl

/-- Witness for the amended C2: the comma-separated bare words
`tag1, tag2` fail the strict parse and produce the sentinel. -/
theorem sentinel_on_strict_parse_failure_witness :
    jsonParse (cleanContentL "tag1, tag2".data) = none ∧
    parseTags "tag1, tag2" 5 = ["tag extraction failed"] :=
  ⟨rfl, sentinel_on_strict_parse_failure "tag1, tag2" 5 rfl⟩

end Anviro
